import Mathlib

/-!
Shallow embedding of the mailbox persistence and reconciliation engine of
the outlook-email-management-system repository.

The embedded code is the legacy (whole-set) storage path of
server/services/mailbox.service.js together with the encrypted blob codec
of server/utils/blob-store.js.  Stateful JavaScript methods become pure
Lean functions that take the current record set (the content the backend
would return) and give back the outcome together with the record set that
is persisted afterwards; the write lock of the service serializes every
mutation end to end, so a group of concurrent calls is embedded as a
sequence of such atomic steps in an arbitrary order.  Generated values
(uuidv4 ids, new Date().toISOString() timestamps, random nonces) are taken
as explicit arguments.
-/

set_option maxHeartbeats 1000000

/-- One mailbox credential record, mirroring the JSON objects the service
stores.  The JavaScript code checks the soft-delete flag with
strict comparisons against false, so a record coming from hand-edited
data may lack the field; this is modelled by an Option.  An absent or
falsy source field is modelled by the empty string. -/
structure Mailbox where
  id : String
  email : String
  password : String
  client_id : String
  refresh_token : String
  is_active : Option Bool
  source : String
  created_at : String
  updated_at : String
deriving Repr, DecidableEq

/-- The payload accepted by addMailbox / addMailboxesBatch; the empty
string models an absent or falsy field, matching JavaScript truthiness
checks on strings. -/
structure MailboxData where
  email : String
  password : String
  client_id : String
  refresh_token : String
  source : String
deriving Repr, DecidableEq

/-- The distinct error signals the service raises; each constructor stands
for one throw site of mailbox.service.js (the original messages are
Chinese strings). -/
inductive MErr where
  | missingFields
  | badEmailFormat
  | emailTooLong
  | passwordTooLong
  | clientIdTooLong
  | refreshTokenTooLong
  | alreadyExists
  | notFound
  | nothingToUpdate
  | badBatchFormat
  | batchIncomplete
  | batchEmailTooLong
  | batchPasswordTooLong
  | batchClientIdTooLong
  | batchRefreshTokenTooLong
  | batchBadEmailFormat
  | missingIdList
deriving Repr, DecidableEq

/-- View of an Except value as a sum, giving decidable equality of
outcomes. -/
def exceptToSum {ε α : Type} : Except ε α → ε ⊕ α
  | .error e => .inl e
  | .ok a => .inr a

instance {ε α : Type} [DecidableEq ε] [DecidableEq α] : DecidableEq (Except ε α) :=
  fun a b =>
    decidable_of_iff (exceptToSum a = exceptToSum b)
      (by cases a <;> cases b <;> simp [exceptToSum])

/-- Characters the character class of the email regex excludes besides
the at sign: the ASCII forms of the \s class. -/
def isJsSpace (c : Char) : Bool :=
  c = ' ' || c = '\t' || c = '\n' || c = '\r' || c = '\x0b' || c = '\x0c'

/-- Split a character list at every occurrence of the character c,
mirroring String.prototype.split with a one-character separator. -/
def splitOnChar (c : Char) : List Char → List (List Char)
  | [] => [[]]
  | a :: as =>
    let rest := splitOnChar c as
    if a = c then [] :: rest
    else
      match rest with
      | [] => [[a]]
      | r :: rs => (a :: r) :: rs

/-- The test performed by the regex of the service.  A string matches
exactly when it has the form A at-sign B dot C with A, B and C nonempty
and free of whitespace and at signs: equivalently, it contains exactly
one at sign, no whitespace, a nonempty local part, and a dot at an
interior position of the domain part. -/
def emailRegexTest (s : String) : Bool :=
  let cs := s.toList
  match splitOnChar '@' cs with
  | [l, r] =>
    !l.isEmpty && !r.isEmpty && cs.all (fun c => !isJsSpace c) &&
      ((r.drop 1).dropLast.contains '.')
  | _ => false

/-- The validation block at the top of addMailbox: required fields, the
email regex, then the four length ceilings, in source order.  Lengths are
counted in characters; the records the engine handles are plain ASCII so
this agrees with the UTF-16 length JavaScript uses. -/
def validateAddOne (d : MailboxData) : Option MErr :=
  if d.email = "" || d.password = "" || d.client_id = "" || d.refresh_token = "" then
    some .missingFields
  else if !emailRegexTest d.email then some .badEmailFormat
  else if d.email.length > 255 then some .emailTooLong
  else if d.password.length > 1024 then some .passwordTooLong
  else if d.client_id.length > 255 then some .clientIdTooLong
  else if d.refresh_token.length > 2048 then some .refreshTokenTooLong
  else none

/-- A record counts as active whenever is_active is not strictly false,
the comparison the service uses everywhere. -/
def isActiveRec (m : Mailbox) : Bool := m.is_active != some false

/-- mailboxData.source with the manual default applied, as in
`mailboxData.source || 'manual'`. -/
def effSource (d : MailboxData) : String :=
  if d.source = "" then "manual" else d.source

/-- The in-place reactivation of a soft-deleted record performed by both
addMailbox and addMailboxesBatch: fresh credentials, is_active true, a
fresh updated_at, and `existing.source = existing.source || source`. -/
def reactivate (m : Mailbox) (d : MailboxData) (now : String) : Mailbox :=
  { m with
    password := d.password
    client_id := d.client_id
    refresh_token := d.refresh_token
    is_active := some true
    updated_at := now
    source := if m.source = "" then effSource d else m.source }

/-- The fresh record built for a brand-new email; freshId stands for the
uuidv4() call. -/
def newMailbox (d : MailboxData) (freshId now : String) : Mailbox :=
  { id := freshId
    email := d.email
    password := d.password
    client_id := d.client_id
    refresh_token := d.refresh_token
    is_active := some true
    source := effSource d
    created_at := now
    updated_at := now }

/-- Replace the first list element satisfying p by its image under f;
this is how the mutation of the record object the service found inside
the freshly read array shows up in the persisted array. -/
def updateFirst (p : Mailbox → Bool) (f : Mailbox → Mailbox) : List Mailbox → List Mailbox
  | [] => []
  | m :: ms => if p m then f m :: ms else m :: updateFirst p f ms

/-- addMailbox of mailbox.service.js in legacy storage mode: validate,
read the whole set, look the email up with Array.prototype.find, then
fail, reactivate in place, or append a fresh record, and persist.  The
returned pair is the outcome together with the record set held by the
backend afterwards (unchanged when the call throws before writing). -/
def addMailbox (d : MailboxData) (freshId now : String) (store : List Mailbox) :
    Except MErr Mailbox × List Mailbox :=
  match validateAddOne d with
  | some e => (.error e, store)
  | none =>
    match store.find? (fun m => m.email == d.email) with
    | some m =>
      if m.is_active != some false then (.error .alreadyExists, store)
      else
        let r := reactivate m d now
        (.ok r, updateFirst (fun x => x.email == d.email) (fun _ => r) store)
    | none =>
      let r := newMailbox d freshId now
      (.ok r, store ++ [r])

/-- getAllMailboxes in legacy storage mode: the active filter. -/
def getAllMailboxes (store : List Mailbox) : List Mailbox :=
  store.filter (fun m => m.is_active != some false)

/-- getMailboxById in legacy storage mode: a plain find by id with no
active filter. -/
def getMailboxById (id : String) (store : List Mailbox) : Option Mailbox :=
  store.find? (fun m => m.id == id)

/-- getMailboxByEmail in legacy storage mode: find by email restricted to
records that are not strictly inactive. -/
def getMailboxByEmail (email : String) (store : List Mailbox) : Option Mailbox :=
  store.find? (fun m => m.email == email && m.is_active != some false)

/-- The emails of the currently active records, the natural keys the
uniqueness invariant speaks about. -/
def activeEmails (store : List Mailbox) : List String :=
  (getAllMailboxes store).map (fun m => m.email)

/-- Run a sequence of addMailbox calls left to right, consuming one fresh
id per call; by the FIFO write lock of the service this is exactly what a
family of concurrent addMailbox calls amounts to, in the order in which
they acquired the lock. -/
def runAddAll (now : String) : List MailboxData → List String → List Mailbox → List Mailbox
  | [], _, store => store
  | d :: ds, ids, store => runAddAll now ds ids.tail (addMailbox d (ids.headD "") now store).2

/-- The per-entry validation loop of addMailboxesBatch: required fields,
then the four length ceilings, then the email regex, in source order
(which differs from the order addMailbox uses). -/
def validateBatchEntry (d : MailboxData) : Option MErr :=
  if d.email = "" || d.password = "" || d.client_id = "" || d.refresh_token = "" then
    some .batchIncomplete
  else if d.email.length > 255 then some .batchEmailTooLong
  else if d.password.length > 1024 then some .batchPasswordTooLong
  else if d.client_id.length > 255 then some .batchClientIdTooLong
  else if d.refresh_token.length > 2048 then some .batchRefreshTokenTooLong
  else if !emailRegexTest d.email then some .batchBadEmailFormat
  else none

/-- The first validation error the loop of addMailboxesBatch raises, if
any. -/
def firstBatchError : List MailboxData → Option MErr
  | [] => none
  | d :: ds =>
    match validateBatchEntry d with
    | some e => some e
    | none => firstBatchError ds

/-- Lookup in the emailMap the batch code builds with
`new Map(existingMailboxes.map(m => [m.email, m]))`: a JavaScript Map
built from a list keeps the value of the last occurrence of each key, so
the lookup returns the last record carrying the email. -/
def jsMapGet (store : List Mailbox) (email : String) : Option Mailbox :=
  store.reverse.find? (fun m => m.email == email)

/-- Replace the last list element satisfying p by its image under f; the
record object the emailMap hands out during a batch is the last one with
its email, and the batch mutates that object in place. -/
def updateLast (p : Mailbox → Bool) (f : Mailbox → Mailbox) (s : List Mailbox) : List Mailbox :=
  (updateFirst p f s.reverse).reverse

/-- The running output of the reconciliation loop of addMailboxesBatch:
the evolving record set plus the added, reactivated and skipped lists, in
entry order. -/
structure BatchAcc where
  store : List Mailbox
  addedRecs : List Mailbox
  reactRecs : List Mailbox
  skippedEmails : List String
deriving Repr, DecidableEq

/-- The reconciliation loop of addMailboxesBatch: one pass over the
entries against the email map (here: the record set it stands for), each
entry classified as added, reactivated, or skipped; an appended record is
also entered into the map, which the evolving set reflects. -/
def processBatch (now : String) : List MailboxData → List String → List Mailbox → BatchAcc
  | [], _, store => ⟨store, [], [], []⟩
  | d :: ds, ids, store =>
    match jsMapGet store d.email with
    | none =>
      let r := newMailbox d (ids.headD "") now
      let acc := processBatch now ds ids.tail (store ++ [r])
      ⟨acc.store, r :: acc.addedRecs, acc.reactRecs, acc.skippedEmails⟩
    | some cur =>
      if cur.is_active == some false then
        let r := reactivate cur d now
        let acc := processBatch now ds ids (updateLast (fun x => x.email == d.email) (fun _ => r) store)
        ⟨acc.store, acc.addedRecs, r :: acc.reactRecs, acc.skippedEmails⟩
      else
        let acc := processBatch now ds ids store
        ⟨acc.store, acc.addedRecs, acc.reactRecs, d.email :: acc.skippedEmails⟩

/-- The result object addMailboxesBatch returns: the added and
reactivated records, the three counts, and the skipped emails. -/
structure BatchResult where
  dataRecs : List Mailbox
  added : Nat
  reactivated : Nat
  skipped : Nat
  skippedEmails : List String
deriving Repr, DecidableEq

/-- addMailboxesBatch of mailbox.service.js in legacy storage mode:
reject a non-array or empty payload, validate every entry up front, then
run the reconciliation loop and persist the merged set once.  The second
component is again the record set the backend holds afterwards. -/
def addMailboxesBatch (ds : List MailboxData) (ids : List String) (now : String)
    (store : List Mailbox) : Except MErr BatchResult × List Mailbox :=
  if ds.isEmpty then (.error .badBatchFormat, store)
  else
    match firstBatchError ds with
    | some e => (.error e, store)
    | none =>
      let acc := processBatch now ds ids store
      (.ok
        { dataRecs := acc.addedRecs ++ acc.reactRecs
          added := acc.addedRecs.length
          reactivated := acc.reactRecs.length
          skipped := acc.skippedEmails.length
          skippedEmails := acc.skippedEmails }, acc.store)

/-- The partial payload of updateMailbox; the empty string models an
absent or falsy field, so a field takes part in the merge exactly when it
is nonempty, matching the truthiness guards of the code. -/
structure UpdateData where
  email : String
  password : String
  client_id : String
  refresh_token : String
deriving Repr, DecidableEq

/-- Object.assign of the collected update fields onto the found record
plus the fresh updated_at. -/
def applyUpdate (m : Mailbox) (u : UpdateData) (now : String) : Mailbox :=
  { m with
    email := if u.email = "" then m.email else u.email
    password := if u.password = "" then m.password else u.password
    client_id := if u.client_id = "" then m.client_id else u.client_id
    refresh_token := if u.refresh_token = "" then m.refresh_token else u.refresh_token
    updated_at := now }

/-- updateMailbox of mailbox.service.js in legacy storage mode: collect
the truthy fields of the payload (email included), fail when none are
supplied, find the record by id, merge, persist. -/
def updateMailbox (id : String) (u : UpdateData) (now : String) (store : List Mailbox) :
    Except MErr Mailbox × List Mailbox :=
  if u.email = "" && u.password = "" && u.client_id = "" && u.refresh_token = "" then
    (.error .nothingToUpdate, store)
  else
    match store.find? (fun m => m.id == id) with
    | none => (.error .notFound, store)
    | some m =>
      let r := applyUpdate m u now
      (.ok r, updateFirst (fun x => x.id == id) (fun _ => r) store)

/-- The soft-delete mutation: clear the active flag and refresh
updated_at. -/
def markDeleted (m : Mailbox) (now : String) : Mailbox :=
  { m with is_active := some false, updated_at := now }

/-- deleteMailbox of mailbox.service.js in legacy storage mode. -/
def deleteMailbox (id : String) (now : String) (store : List Mailbox) :
    Except MErr Unit × List Mailbox :=
  match store.find? (fun m => m.id == id) with
  | none => (.error .notFound, store)
  | some m =>
    (.ok (), updateFirst (fun x => x.id == id) (fun _ => markDeleted m now) store)

/-- The id loop of deleteMailboxesBatch: each id that names a record that
is still active is flipped inactive and counted; other ids are ignored. -/
def deleteBatchLoop (now : String) : List String → List Mailbox → Nat × List Mailbox
  | [], store => (0, store)
  | i :: is, store =>
    match store.find? (fun m => m.id == i) with
    | some m =>
      if m.is_active != some false then
        let rest := deleteBatchLoop now is
          (updateFirst (fun x => x.id == i) (fun _ => markDeleted m now) store)
        (rest.1 + 1, rest.2)
      else deleteBatchLoop now is store
    | none => deleteBatchLoop now is store

/-- deleteMailboxesBatch of mailbox.service.js in legacy storage mode:
reject an empty id list, then run the best-effort loop and persist. -/
def deleteMailboxesBatch (ids : List String) (now : String) (store : List Mailbox) :
    Except MErr Nat × List Mailbox :=
  if ids.isEmpty then (.error .missingIdList, store)
  else
    let r := deleteBatchLoop now ids store
    (.ok r.1, r.2)

/-- The outcome of one probe through the injected proxy capability: a
resolved call, or a rejection carrying the numeric status of the error
(0 stands for a falsy or absent status) and its message. -/
inductive ProbeResult where
  | ok
  | err (status : Nat) (msg : String)
deriving Repr, DecidableEq

/-- Naive substring search, used to embed
String.prototype.includes. -/
def listContainsSub (needle : List Char) : List Char → Bool
  | [] => needle.isEmpty
  | c :: cs => needle.isPrefixOf (c :: cs) || listContainsSub needle cs

/-- The message test of the sweep classifier:
`err.message.includes('HTTP 500')`. -/
def hasHTTP500 (msg : String) : Bool :=
  listContainsSub ("HTTP 500".toList) msg.toList

/-- The effective status the classifier computes with
`err.status || (msg.includes('HTTP 500') ? 500 : null)`; 0 models null. -/
def probeStatus (status : Nat) (msg : String) : Nat :=
  if status ≠ 0 then status else if hasHTTP500 msg then 500 else 0

/-- The three-way classification of checkMailbox inside
validateMailboxesBySource. -/
inductive CheckOutcome where
  | valid
  | invalid
  | probeError (msg : String)
deriving Repr, DecidableEq

/-- checkMailbox of validateMailboxesBySource: a resolved probe is valid,
a rejection whose effective status is 500 is the authoritative dead
signal, every other rejection is a plain error. -/
def checkMailbox (probe : Mailbox → ProbeResult) (m : Mailbox) : CheckOutcome :=
  match probe m with
  | .ok => .valid
  | .err status msg =>
    if probeStatus status msg = 500 then .invalid else .probeError msg

/-- The target set of a sweep: the active records, filtered by source
(an empty string models a null source filter) and by the optional id
list. -/
def sweepTarget (source : String) (ids : List String) (store : List Mailbox) : List Mailbox :=
  (getAllMailboxes store).filter
    (fun m => (source == "" || m.source == source) && (ids.isEmpty || ids.contains m.id))

/-- The counters the classification pass of the sweep accumulates. -/
structure SweepAcc where
  checked : Nat
  removedIds : List String
  removedEmails : List String
  errors : List (String × String)
deriving Repr, DecidableEq

/-- The classification pass of validateMailboxesBySource.  The JavaScript
code slices the target list into consecutive chunks of the concurrency
bound and awaits each chunk with Promise.all, which preserves order, so
the stream of results it folds over is exactly the target list in
order. -/
def classifySweep (probe : Mailbox → ProbeResult) : List Mailbox → SweepAcc
  | [] => ⟨0, [], [], []⟩
  | m :: ms =>
    let rest := classifySweep probe ms
    match checkMailbox probe m with
    | .valid => ⟨rest.checked + 1, rest.removedIds, rest.removedEmails, rest.errors⟩
    | .invalid => ⟨rest.checked, m.id :: rest.removedIds, m.email :: rest.removedEmails, rest.errors⟩
    | .probeError msg => ⟨rest.checked, rest.removedIds, rest.removedEmails, (m.email, msg) :: rest.errors⟩

/-- The result object of validateMailboxesBySource. -/
structure SweepResult where
  checked : Nat
  removed : Nat
  removedEmails : List String
  errors : List (String × String)
  data : List Mailbox
deriving Repr, DecidableEq

/-- validateMailboxesBySource of mailbox.service.js: select the target
among the active records, classify every probe result, soft-delete the
records that carried the authoritative dead signal through
deleteMailboxesBatch, and report the counters together with the remaining
active set. -/
def validateMailboxesBySource (probe : Mailbox → ProbeResult) (ids : List String)
    (source : String) (now : String) (store : List Mailbox) : SweepResult × List Mailbox :=
  let target := sweepTarget source ids store
  let acc := classifySweep probe target
  let store' :=
    if acc.removedIds.isEmpty then store
    else (deleteBatchLoop now acc.removedIds store).2
  ({ checked := acc.checked
     removed := acc.removedIds.length
     removedEmails := acc.removedEmails
     errors := acc.errors
     data := getAllMailboxes store' }, store')

/-- Byte sequences, the unit the codec of blob-store.js works on; base64
wrapping and utf8 conversion are bijections on the values involved and
are elided. -/
abbrev Bytes := List Nat

/-- The aes-256-gcm primitive of the node crypto library, which is not
repository code: it is modelled by its interface, a keystream generator
(the CTR part, one byte per index) and a deterministic authentication tag
over key, nonce and ciphertext (the GHASH part).  Every theorem below
holds for an arbitrary instance. -/
structure GCMModel where
  keystream : Bytes → Bytes → Nat → Nat
  tagOf : Bytes → Bytes → Bytes → Bytes

/-- The byte-level cipher stream: each plaintext byte xored with the
keystream byte at its index; applying it twice with the same key and
nonce is the identity, which is what makes GCM decryption invert
encryption. -/
def cipherBytes (g : GCMModel) (k iv : Bytes) : Nat → Bytes → Bytes
  | _, [] => []
  | i, b :: bs => (b ^^^ g.keystream k iv i) :: cipherBytes g k iv (i + 1) bs

/-- The encrypted wrapper object encryptJSON builds: the algorithm marker
stored under __enc, the nonce, the authentication tag, and the
ciphertext. -/
structure EncWrapper where
  algo : String
  iv : Bytes
  tag : Bytes
  data : Bytes
deriving Repr, DecidableEq

/-- encryptJSON of blob-store.js: encrypt the serialized payload bytes
under a fresh 12-byte nonce and package nonce, tag and ciphertext; iv
stands for the crypto.randomBytes(12) draw. -/
def encryptJSON (g : GCMModel) (payload : Bytes) (key iv : Bytes) : EncWrapper :=
  let ct := cipherBytes g key iv 0 payload
  { algo := "aes-256-gcm", iv := iv, tag := g.tagOf key iv ct, data := ct }

/-- The byte-level core of tryDecryptWrapper: check the algorithm marker
and the truthiness of the three fields, recompute the tag, and only when
it verifies run the stream cipher; a failed check is the DecryptionFailed
signal, surfaced as none because the catch block turns the throw of
decipher.final into a null return. -/
def decryptBytes (g : GCMModel) (k : Bytes) (w : EncWrapper) : Option Bytes :=
  if w.algo = "aes-256-gcm" && !w.iv.isEmpty && !w.tag.isEmpty && !w.data.isEmpty then
    if g.tagOf k w.iv w.data == w.tag then some (cipherBytes g k w.iv 0 w.data)
    else none
  else none

/-- The JSON values readJSONBlob distinguishes: an array of records (the
only shape _readMailboxesLegacy keeps), an encrypted wrapper (any object
with a truthy __enc field), or some other JSON value. -/
inductive ParsedVal where
  | plainArr (records : List Mailbox)
  | wrapper (w : EncWrapper)
  | otherJson
deriving Repr, DecidableEq

/-- tryDecryptWrapper of blob-store.js: require a configured key, open
the wrapper at the byte level, then JSON.parse the plaintext (the parse
of the recovered text is the decParse argument; a parse throw is caught
and becomes null like every other failure in the function). -/
def tryDecryptWrapper (g : GCMModel) (decParse : Bytes → Option ParsedVal)
    (key : Option Bytes) (w : EncWrapper) : Option ParsedVal :=
  match key with
  | none => none
  | some k => (decryptBytes g k w).bind decParse

/-- What one call of readJSONBlob can observe from the blob service: no
object under the key, a thrown list or fetch rejection, a response with a
non-ok status, or a response body. -/
inductive BlobReadEvent where
  | absent
  | transportFailure (msg : String)
  | httpFailure (status : Nat) (statusText : String)
  | body (text : String)
deriving Repr, DecidableEq

/-- readJSONBlob of blob-store.js: a missing token is the only throw
that escapes; a missing object returns null; every exception inside the
try block — transport failures, the error thrown for a non-ok response
status, a JSON.parse throw — is caught and also returns null; a payload
carrying a truthy __enc field is handed to tryDecryptWrapper and a failed
decryption again becomes null.  parse stands for JSON.parse on the body
text. -/
def readJSONBlob (hasToken : Bool) (parse : String → Option ParsedVal)
    (g : GCMModel) (decParse : Bytes → Option ParsedVal) (key : Option Bytes) :
    BlobReadEvent → Except String (Option ParsedVal)
  | .absent => if hasToken then .ok none else .error "missing blob token"
  | .transportFailure _ => if hasToken then .ok none else .error "missing blob token"
  | .httpFailure _ _ => if hasToken then .ok none else .error "missing blob token"
  | .body text =>
    if hasToken then
      match parse text with
      | none => .ok none
      | some (.wrapper w) => .ok (tryDecryptWrapper g decParse key w)
      | some v => .ok (some v)
    else .error "missing blob token"

/-- _readMailboxesLegacy of mailbox.service.js in blob mode: propagate a
throw of readJSONBlob, otherwise keep the value only when it is an array
and fall back to the empty list. -/
def readMailboxesLegacyBlob (r : Except String (Option ParsedVal)) :
    Except String (List Mailbox) :=
  match r with
  | .error e => .error e
  | .ok (some (.plainArr records)) => .ok records
  | .ok _ => .ok []

/-- True exactly when some stored record (active or not) carries the
email of the batch entry. -/
def existsEmail (store : List Mailbox) (d : MailboxData) : Bool :=
  store.any (fun m => m.email == d.email)

/-- Witness for softDelete_lookup_contrast at a concrete two-record
store. -/
def c10m1 : Mailbox := ⟨"idA", "a@b.c", "p", "c", "r", some true, "manual", "t0", "t0"⟩

def c10m2 : Mailbox := ⟨"idB", "d@e.f", "p", "c", "r", some true, "manual", "t0", "t0"⟩

/-- Witness for codec_roundtrip_auth with a small concrete instance of
the cipher interface and two keys whose tags differ on the produced
ciphertext. -/
def c9g : GCMModel :=
  ⟨fun k iv i => (k.headD 0 + iv.headD 0 + i) % 256, fun k iv ct => [(k.sum + iv.sum + ct.sum) % 251]⟩

/-- Witness for addOne_reactivate_or_conflict: a one-record store holding
a soft-deleted record, reactivated at its original id. -/
def c4m : Mailbox := ⟨"id0", "a@b.c", "p", "c", "r", some false, "manual", "t0", "t0"⟩

def c4d : MailboxData := ⟨"a@b.c", "p2", "c2", "r2", ""⟩

/-- Witness for updateMailbox_merge_spec: a one-record store updated with
a password-only payload. -/
def c5m : Mailbox := ⟨"id5w", "w@x.y", "p", "c", "r", some true, "manual", "t0", "t0"⟩

def c5u : UpdateData := ⟨"", "p9", "", ""⟩

/-- Witness for reactivation_source_sticky on a one-record store whose
soft-deleted record carries source purchase. -/
def c6m : Mailbox := ⟨"id6w", "s@x.y", "p", "c", "r", some false, "purchase", "t0", "t0"⟩

def c6d : MailboxData := ⟨"s@x.y", "p2", "c2", "r2", "gift"⟩

/-- Witness for addBatch_reconciliation: two entries, one a duplicate of
the single active stored record, one fresh. -/
def c2m : Mailbox := ⟨"idC", "a@b.c", "p", "c", "r", some true, "manual", "t0", "t0"⟩

/-- Witness for sweep_classification_spec: the five-record scenario of
the spec — two authoritative-dead probes, two successes, one transient
error. -/
def c7store : List Mailbox :=
  [⟨"s1", "e1@x.y", "p", "c", "r", some true, "purchase", "t", "t"⟩,
   ⟨"s2", "e2@x.y", "p", "c", "r", some true, "purchase", "t", "t"⟩,
   ⟨"s3", "e3@x.y", "p", "c", "r", some true, "purchase", "t", "t"⟩,
   ⟨"s4", "e4@x.y", "p", "c", "r", some true, "purchase", "t", "t"⟩,
   ⟨"s5", "e5@x.y", "p", "c", "r", some true, "purchase", "t", "t"⟩]

def c7probe : Mailbox → ProbeResult := fun m =>
  if m.id == "s1" || m.id == "s2" then .err 500 "boom"
  else if m.id == "s5" then .err 0 "network timeout"
  else .ok

/-! Helper lemmas about the list-surgery primitives the embedding uses. -/

theorem length_updateFirst (p : Mailbox → Bool) (f : Mailbox → Mailbox) (s : List Mailbox) :
    (updateFirst p f s).length = s.length := by
  induction s with
  | nil => rfl
  | cons a s ih =>
    by_cases h : p a = true <;> simp [updateFirst, h, ih]

theorem map_updateFirst {α : Type} (g : Mailbox → α) (p : Mailbox → Bool) (f : Mailbox → Mailbox)
    (s : List Mailbox) (h : ∀ x, p x = true → g (f x) = g x) :
    (updateFirst p f s).map g = s.map g := by
  induction s with
  | nil => rfl
  | cons a s ih =>
    by_cases ha : p a = true
    · simp [updateFirst, ha, h a ha]
    · simp [updateFirst, ha, ih]

theorem mem_updateFirst_of_find (p : Mailbox → Bool) (f : Mailbox → Mailbox) (s : List Mailbox)
    (x : Mailbox) (h : s.find? p = some x) : f x ∈ updateFirst p f s := by
  induction s with
  | nil => simp [List.find?] at h
  | cons a s ih =>
    by_cases ha : p a = true
    · rw [List.find?_cons_of_pos _ ha] at h
      cases h
      simp [updateFirst, ha]
    · rw [List.find?_cons_of_neg _ (by simpa using ha)] at h
      simp [updateFirst, ha, ih h]

theorem mem_updateFirst_of_not_p (p : Mailbox → Bool) (f : Mailbox → Mailbox) (s : List Mailbox)
    (m : Mailbox) (hm : m ∈ s) (h : p m = false) : m ∈ updateFirst p f s := by
  induction s with
  | nil => simp at hm
  | cons a s ih =>
    by_cases ha : p a = true
    · rcases List.mem_cons.mp hm with rfl | hm'
      · rw [ha] at h; cases h
      · simp [updateFirst, ha, hm']
    · rcases List.mem_cons.mp hm with rfl | hm'
      · simp [updateFirst, ha]
      · simp [updateFirst, ha, ih hm']

theorem find?_eq_some_of_unique (p : Mailbox → Bool) (s : List Mailbox) (m : Mailbox)
    (hm : m ∈ s) (hp : p m = true) (hu : ∀ a ∈ s, p a = true → a = m) :
    s.find? p = some m := by
  induction s with
  | nil => simp at hm
  | cons a s ih =>
    by_cases ha : p a = true
    · rw [List.find?_cons_of_pos _ ha, hu a (List.mem_cons_self a s) ha]
    · rw [List.find?_cons_of_neg _ (by simpa using ha)]
      rcases List.mem_cons.mp hm with rfl | hm'
      · rw [hp] at ha; cases ha rfl
      · exact ih hm' (fun b hb hpb => hu b (List.mem_cons_of_mem _ hb) hpb)

theorem map_eq_self_of_no_match (g : Mailbox → Mailbox) (p : Mailbox → Bool)
    (s : List Mailbox) (hg : ∀ x, p x = false → g x = x) (h : ∀ x ∈ s, p x = false) :
    s.map g = s := by
  induction s with
  | nil => rfl
  | cons a s ih =>
    simp only [List.map_cons, hg a (h a (List.mem_cons_self a s)),
      ih (fun x hx => h x (List.mem_cons_of_mem _ hx)), List.cons.injEq, and_self]

/-- When the element values of s are pairwise distinct and at most one of
them satisfies p, replacing the first match is the same as mapping the
conditional rewrite over the whole list. -/
theorem updateFirst_eq_map (p : Mailbox → Bool) (f : Mailbox → Mailbox) (s : List Mailbox)
    (hnd : s.Nodup) (hu : ∀ x ∈ s, p x = true → ∀ y ∈ s, p y = true → x = y) :
    updateFirst p f s = s.map (fun x => if p x = true then f x else x) := by
  induction s with
  | nil => rfl
  | cons a s ih =>
    by_cases ha : p a = true
    · have hrest : ∀ x ∈ s, p x = false := by
        intro x hx
        by_contra hpx
        have hx' : p x = true := by
          cases hpx' : p x with
          | false => exact absurd hpx' hpx
          | true => rfl
        have : x = a := hu x (List.mem_cons_of_mem _ hx) hx' a (List.mem_cons_self a s) ha
        subst this
        exact (List.nodup_cons.mp hnd).1 hx
      have hmap : s.map (fun x => if p x = true then f x else x) = s :=
        map_eq_self_of_no_match (fun x => if p x = true then f x else x) p s
          (fun x hx => by simp [hx]) hrest
      simp [updateFirst, ha, hmap]
    · have ha' : p a = false := by
        cases hpa : p a with
        | false => rfl
        | true => exact absurd hpa ha
      simp only [updateFirst, ha', Bool.false_eq_true, if_false, List.map_cons, ha]
      rw [ih (List.nodup_cons.mp hnd).2
        (fun x hx hpx y hy hpy => hu x (List.mem_cons_of_mem _ hx) hpx y (List.mem_cons_of_mem _ hy) hpy)]

theorem find?_congr_mem {α : Type} (p q : α → Bool) (l : List α)
    (h : ∀ x ∈ l, p x = q x) : l.find? p = l.find? q := by
  induction l with
  | nil => rfl
  | cons a l ih =>
    have ha := h a (List.mem_cons_self a l)
    cases hq : q a with
    | true =>
      rw [List.find?_cons_of_pos _ (ha.trans hq), List.find?_cons_of_pos _ hq]
    | false =>
      rw [List.find?_cons_of_neg _ (by simp [ha, hq]), List.find?_cons_of_neg _ (by simp [hq])]
      exact ih (fun x hx => h x (List.mem_cons_of_mem _ hx))

/-- C10.  After soft-deleting a record through deleteMailbox, looking it
up by id still succeeds — getMailboxById applies no active filter and
returns the now-inactive record — while looking its email up through
getMailboxByEmail returns nothing, and getAllMailboxes only ever returns
records whose is_active is not false. -/
theorem softDelete_lookup_contrast (store : List Mailbox) (m : Mailbox) (now : String)
    (hids : (store.map (fun x => x.id)).Nodup)
    (hemails : (store.map (fun x => x.email)).Nodup)
    (hm : m ∈ store) :
    (deleteMailbox m.id now store).1 = .ok () ∧
    getMailboxById m.id (deleteMailbox m.id now store).2 = some (markDeleted m now) ∧
    isActiveRec (markDeleted m now) = false ∧
    getMailboxByEmail m.email (deleteMailbox m.id now store).2 = none ∧
    (∀ s : List Mailbox, ∀ x ∈ getAllMailboxes s, isActiveRec x = true) := by
  have hinj := List.inj_on_of_nodup_map hids
  have hinjE := List.inj_on_of_nodup_map hemails
  have hnd : store.Nodup := List.Nodup.of_map _ hids
  have hfind : store.find? (fun x => x.id == m.id) = some m := by
    refine find?_eq_some_of_unique _ store m hm (by simp) ?_
    intro a ha hpa
    exact hinj ha hm (by simpa using hpa)
  have hdel : (deleteMailbox m.id now store).2
      = updateFirst (fun x => x.id == m.id) (fun _ => markDeleted m now) store := by
    simp [deleteMailbox, hfind]
  have hmap : updateFirst (fun x => x.id == m.id) (fun _ => markDeleted m now) store
      = store.map (fun x => if (x.id == m.id) = true then markDeleted m now else x) := by
    refine updateFirst_eq_map _ _ store hnd ?_
    intro x hx hpx y hy hpy
    have hx' : x.id = m.id := by simpa using hpx
    have hy' : y.id = m.id := by simpa using hpy
    exact (hinj hx hm hx').trans (hinj hy hm hy').symm
  refine ⟨by simp [deleteMailbox, hfind], ?_, by simp [markDeleted, isActiveRec], ?_, ?_⟩
  · rw [hdel, hmap]
    unfold getMailboxById
    rw [List.find?_map]
    have hcg : store.find?
        ((fun x => x.id == m.id) ∘ (fun x => if (x.id == m.id) = true then markDeleted m now else x))
        = store.find? (fun x => x.id == m.id) := by
      refine find?_congr_mem _ _ store ?_
      intro x _
      by_cases hx : x.id = m.id
      · simp [hx, markDeleted]
      · simp [hx]
    rw [hcg, hfind]
    simp [hm, markDeleted]
  · rw [hdel, hmap]
    unfold getMailboxByEmail
    rw [List.find?_eq_none]
    intro y hy
    obtain ⟨x, hx, rfl⟩ := List.mem_map.mp hy
    by_cases hpx : (x.id == m.id) = true
    · simp [hpx, markDeleted]
    · simp only [hpx, Bool.false_eq_true, if_false]
      intro hcontra
      have hxe : x.email = m.email := by
        have := (Bool.and_eq_true _ _).mp hcontra
        simpa using this.1
      have : x = m := hinjE hx hm hxe
      subst this
      simp at hpx
  · intro s x hx
    have := (List.mem_filter.mp hx).2
    simpa [isActiveRec] using this

theorem softDelete_lookup_contrast_witness :
    (deleteMailbox "idA" "t1" [c10m1, c10m2]).1 = .ok () ∧
    getMailboxById "idA" (deleteMailbox "idA" "t1" [c10m1, c10m2]).2 = some (markDeleted c10m1 "t1") ∧
    getMailboxByEmail "a@b.c" (deleteMailbox "idA" "t1" [c10m1, c10m2]).2 = none := by
  have h := softDelete_lookup_contrast [c10m1, c10m2] c10m1 "t1" (by decide) (by decide) (by decide)
  exact ⟨h.1, h.2.1, h.2.2.2.1⟩

theorem firstBatchError_isSome (ds : List MailboxData) (d : MailboxData) (hd : d ∈ ds)
    (hbad : validateBatchEntry d ≠ none) : ∃ e, firstBatchError ds = some e := by
  induction ds with
  | nil => simp at hd
  | cons a ds ih =>
    cases ha : validateBatchEntry a with
    | some e => exact ⟨e, by simp [firstBatchError, ha]⟩
    | none =>
      rcases List.mem_cons.mp hd with rfl | hd'
      · exact absurd ha hbad
      · obtain ⟨e, he⟩ := ih hd'
        exact ⟨e, by simp [firstBatchError, ha, he]⟩

/-- C3.  A batch containing any entry that fails validation — a missing
field, a malformed email, or an over-length field, i.e. any entry on
which validateBatchEntry reports an error — makes addMailboxesBatch
raise a validation error while the stored record set stays exactly as it
was: nothing is persisted. -/
theorem addBatch_invalid_rejects_whole (ds : List MailboxData) (ids : List String)
    (now : String) (store : List Mailbox) (d : MailboxData) (hd : d ∈ ds)
    (hbad : validateBatchEntry d ≠ none) :
    ∃ e, addMailboxesBatch ds ids now store = (.error e, store) := by
  obtain ⟨e, he⟩ := firstBatchError_isSome ds d hd hbad
  have hne : ds.isEmpty = false := by
    cases ds
    · simp at hd
    · rfl
  exact ⟨e, by simp [addMailboxesBatch, hne, he]⟩

theorem addBatch_invalid_rejects_whole_witness :
    ∃ e, addMailboxesBatch
      [⟨"ok@b.c", "p", "c", "r", ""⟩, ⟨"not-an-email", "p", "c", "r", ""⟩] ["i1", "i2"] "t1"
      [⟨"idZ", "z@b.c", "p", "c", "r", some true, "manual", "t0", "t0"⟩]
      = (.error e,
         [⟨"idZ", "z@b.c", "p", "c", "r", some true, "manual", "t0", "t0"⟩]) :=
  addBatch_invalid_rejects_whole _ _ "t1" _ ⟨"not-an-email", "p", "c", "r", ""⟩
    (by decide) (by decide)

/-- C8 counterexample.  A blob read that fails with an HTTP 500 response
— a backend failure that is neither a missing object nor an undecryptable
payload — does not surface an error: readJSONBlob swallows the throw and
returns null, which _readMailboxesLegacy turns into the empty record set,
exactly what the claim says never happens. -/
theorem read_failure_degrades_cex :
    readMailboxesLegacyBlob (readJSONBlob true (fun _ => none)
        ⟨fun _ _ _ => 0, fun _ _ _ => []⟩ (fun _ => none) none
        (.httpFailure 500 "Internal Server Error"))
      = .ok [] := by decide

/-- C8 amended.  In blob mode (the token present), no read failure of any
kind ever propagates out of readJSONBlob: a missing object, a transport
failure, a non-ok HTTP status, an unparsable body, and an undecryptable
wrapper all degrade to an ok result, never an error — only write
failures propagate in this code base. -/
theorem read_failures_never_propagate (parse : String → Option ParsedVal) (g : GCMModel)
    (decParse : Bytes → Option ParsedVal) (key : Option Bytes) (ev : BlobReadEvent) :
    ∃ v, readJSONBlob true parse g decParse key ev = .ok v := by
  cases ev with
  | absent => exact ⟨none, by simp [readJSONBlob]⟩
  | transportFailure msg => exact ⟨none, by simp [readJSONBlob]⟩
  | httpFailure status text => exact ⟨none, by simp [readJSONBlob]⟩
  | body text =>
    cases hp : parse text with
    | none => exact ⟨none, by simp [readJSONBlob, hp]⟩
    | some v =>
      cases v with
      | wrapper w => exact ⟨tryDecryptWrapper g decParse key w, by simp [readJSONBlob, hp]⟩
      | plainArr records => exact ⟨some (.plainArr records), by simp [readJSONBlob, hp]⟩
      | otherJson => exact ⟨some .otherJson, by simp [readJSONBlob, hp]⟩

theorem length_cipherBytes (g : GCMModel) (k iv : Bytes) :
    ∀ (i : Nat) (bs : Bytes), (cipherBytes g k iv i bs).length = bs.length := by
  intro i bs
  induction bs generalizing i with
  | nil => rfl
  | cons b bs ih => simp [cipherBytes, ih]

theorem cipherBytes_involutive (g : GCMModel) (k iv : Bytes) :
    ∀ (i : Nat) (bs : Bytes), cipherBytes g k iv i (cipherBytes g k iv i bs) = bs := by
  intro i bs
  induction bs generalizing i with
  | nil => rfl
  | cons b bs ih => simp [cipherBytes, Nat.xor_cancel_right, ih]

/-- C9.  For any behaviour of the aes-256-gcm primitive: encrypting a
payload and decrypting the wrapper with the same key reproduces the
payload bytes exactly (and tryDecryptWrapper then hands exactly the
original plaintext to JSON.parse); decrypting the wrapper under a key
whose recomputed authentication tag differs — the authentication
property of GCM, which holds for distinct AES keys up to tag
collisions — fails with the DecryptionFailed signal: the result is the
null of the catch block, independent of the parse function, so no parse
error or crash can occur. -/
theorem codec_roundtrip_auth (g : GCMModel) (key iv payload : Bytes)
    (hp : payload ≠ []) (hiv : iv ≠ [])
    (htag : g.tagOf key iv (cipherBytes g key iv 0 payload) ≠ []) :
    decryptBytes g key (encryptJSON g payload key iv) = some payload ∧
    (∀ (decParse : Bytes → Option ParsedVal) (v : ParsedVal), decParse payload = some v →
      tryDecryptWrapper g decParse (some key) (encryptJSON g payload key iv) = some v) ∧
    (∀ (key2 : Bytes) (decParse2 : Bytes → Option ParsedVal),
      g.tagOf key2 iv (cipherBytes g key iv 0 payload)
          ≠ g.tagOf key iv (cipherBytes g key iv 0 payload) →
      decryptBytes g key2 (encryptJSON g payload key iv) = none ∧
      tryDecryptWrapper g decParse2 (some key2) (encryptJSON g payload key iv) = none) := by
  have hivE : iv.isEmpty = false := by
    cases iv
    · exact absurd rfl hiv
    · rfl
  have htagE : (g.tagOf key iv (cipherBytes g key iv 0 payload)).isEmpty = false := by
    cases htg : g.tagOf key iv (cipherBytes g key iv 0 payload)
    · exact absurd htg htag
    · rfl
  have hctE : (cipherBytes g key iv 0 payload).isEmpty = false := by
    cases hc : cipherBytes g key iv 0 payload
    · have := length_cipherBytes g key iv 0 payload
      rw [hc] at this
      cases payload
      · exact absurd rfl hp
      · simp at this
    · rfl
  have hroundtrip : decryptBytes g key (encryptJSON g payload key iv) = some payload := by
    simp [decryptBytes, encryptJSON, hivE, htagE, hctE, cipherBytes_involutive]
  refine ⟨hroundtrip, ?_, ?_⟩
  · intro decParse v hv
    simp [tryDecryptWrapper, hroundtrip, hv]
  · intro key2 decParse2 hne
    have hfail : decryptBytes g key2 (encryptJSON g payload key iv) = none := by
      have hbeq : (g.tagOf key2 iv (cipherBytes g key iv 0 payload)
          == g.tagOf key iv (cipherBytes g key iv 0 payload)) = false := by
        simpa using hne
      simp [decryptBytes, encryptJSON, hivE, htagE, hctE, hbeq]
    exact ⟨hfail, by simp [tryDecryptWrapper, hfail]⟩

theorem codec_roundtrip_auth_witness :
    decryptBytes c9g [7, 7] (encryptJSON c9g [10, 20, 30] [7, 7] [3]) = some [10, 20, 30] ∧
    decryptBytes c9g [9] (encryptJSON c9g [10, 20, 30] [7, 7] [3]) = none := by
  have h := codec_roundtrip_auth c9g [7, 7] [3] [10, 20, 30] (by decide) (by decide) (by decide)
  exact ⟨h.1, (h.2.2 [9] (fun _ => none) (by decide)).1⟩

/-- C4.  When the record addMailbox finds for the email is soft-deleted,
the call reactivates it in place: the returned record keeps the original
id and email, carries the new credentials and is_active true, it is
stored by replacing the old entry — so the set keeps its length and its
email column, and no second record for the email appears.  When the
found record is active, the call fails with AlreadyExists and the stored
set is untouched. -/
theorem addOne_reactivate_or_conflict (d : MailboxData) (fid now : String)
    (store : List Mailbox) (r : Mailbox)
    (hv : validateAddOne d = none)
    (hfind : store.find? (fun m => m.email == d.email) = some r) :
    (r.is_active = some false →
      addMailbox d fid now store
        = (.ok (reactivate r d now),
           updateFirst (fun x => x.email == d.email) (fun _ => reactivate r d now) store) ∧
      (reactivate r d now).id = r.id ∧
      (reactivate r d now).email = r.email ∧
      (reactivate r d now).is_active = some true ∧
      (reactivate r d now).password = d.password ∧
      (reactivate r d now).client_id = d.client_id ∧
      (reactivate r d now).refresh_token = d.refresh_token ∧
      reactivate r d now
        ∈ updateFirst (fun x => x.email == d.email) (fun _ => reactivate r d now) store ∧
      (updateFirst (fun x => x.email == d.email) (fun _ => reactivate r d now) store).length
        = store.length ∧
      (updateFirst (fun x => x.email == d.email) (fun _ => reactivate r d now) store).map
          (fun m => m.email)
        = store.map (fun m => m.email)) ∧
    (r.is_active ≠ some false →
      addMailbox d fid now store = (.error .alreadyExists, store)) := by
  have hre : r.email = d.email := by
    have := List.find?_some hfind
    simpa using this
  constructor
  · intro ha
    have hcond : (r.is_active != some false) = false := by simp [ha]
    refine ⟨by simp [addMailbox, hv, hfind, hcond], rfl, rfl, rfl, rfl, rfl, rfl, ?_, ?_, ?_⟩
    · exact mem_updateFirst_of_find _ _ store r hfind
    · exact length_updateFirst _ _ store
    · refine map_updateFirst _ _ _ store ?_
      intro x hx
      have : x.email = d.email := by simpa using hx
      rw [this, reactivate, hre]
  · intro ha
    have hcond : (r.is_active != some false) = true := by simpa using ha
    simp [addMailbox, hv, hfind, hcond]

theorem addOne_reactivate_or_conflict_witness :
    addMailbox c4d "fresh1" "t1" [c4m]
      = (.ok (reactivate c4m c4d "t1"),
         updateFirst (fun x => x.email == c4d.email) (fun _ => reactivate c4m c4d "t1") [c4m]) ∧
    (reactivate c4m c4d "t1").id = "id0" := by
  have h := (addOne_reactivate_or_conflict c4d "fresh1" "t1" [c4m] c4m
    (by decide) (by decide)).1 (by decide)
  exact ⟨h.1, h.2.1.trans (by decide)⟩

/-- C5 counterexample.  The claim says updateMailbox never changes the
email field, but supplying an email in the partial payload does change
it: updating the record with payload email new at x.y stores that email
in place of the original one. -/
theorem update_changes_email_cex :
    (updateMailbox "id5" ⟨"new@x.y", "", "", ""⟩ "t1"
        [⟨"id5", "old@x.y", "p", "c", "r", some true, "manual", "t0", "t0"⟩]).2.map
        (fun m => m.email)
      = ["new@x.y"] ∧ ("new@x.y" : String) ≠ "old@x.y" := by decide

/-- C5 amended.  updateMailbox merges exactly the supplied (truthy)
fields of the payload — email included, when one is supplied — into the
found record, refreshes updated_at, and leaves id, is_active, source and
created_at untouched; it fails with NothingToUpdate when the payload
supplies no fields and with NotFound when no record has the id, leaving
the store unchanged in both cases. -/
theorem updateMailbox_merge_spec (id : String) (u : UpdateData) (now : String)
    (store : List Mailbox) :
    ((u.email = "" ∧ u.password = "" ∧ u.client_id = "" ∧ u.refresh_token = "") →
      updateMailbox id u now store = (.error .nothingToUpdate, store)) ∧
    (¬(u.email = "" ∧ u.password = "" ∧ u.client_id = "" ∧ u.refresh_token = "") →
      (store.find? (fun m => m.id == id) = none →
        updateMailbox id u now store = (.error .notFound, store)) ∧
      (∀ m, store.find? (fun m' => m'.id == id) = some m →
        updateMailbox id u now store
          = (.ok (applyUpdate m u now),
             updateFirst (fun x => x.id == id) (fun _ => applyUpdate m u now) store) ∧
        (applyUpdate m u now).id = m.id ∧
        (applyUpdate m u now).is_active = m.is_active ∧
        (applyUpdate m u now).source = m.source ∧
        (applyUpdate m u now).created_at = m.created_at ∧
        (applyUpdate m u now).updated_at = now ∧
        (applyUpdate m u now).email = (if u.email = "" then m.email else u.email) ∧
        (applyUpdate m u now).password = (if u.password = "" then m.password else u.password) ∧
        (applyUpdate m u now).client_id = (if u.client_id = "" then m.client_id else u.client_id) ∧
        (applyUpdate m u now).refresh_token
          = (if u.refresh_token = "" then m.refresh_token else u.refresh_token))) := by
  constructor
  · intro ⟨h1, h2, h3, h4⟩
    simp [updateMailbox, h1, h2, h3, h4]
  · intro hne
    have hcond : (decide (u.email = "") && decide (u.password = "") &&
        decide (u.client_id = "") && decide (u.refresh_token = "")) = false := by
      by_contra hc
      have : (decide (u.email = "") && decide (u.password = "") &&
          decide (u.client_id = "") && decide (u.refresh_token = "")) = true := by
        cases h : (decide (u.email = "") && decide (u.password = "") &&
            decide (u.client_id = "") && decide (u.refresh_token = ""))
        · exact absurd h hc
        · rfl
      simp only [Bool.and_eq_true, decide_eq_true_eq] at this
      exact hne ⟨this.1.1.1, this.1.1.2, this.1.2, this.2⟩
    constructor
    · intro hfind
      simp [updateMailbox, hcond, hfind]
    · intro m hfind
      exact ⟨by simp [updateMailbox, hcond, hfind], rfl, rfl, rfl, rfl, rfl, rfl, rfl, rfl, rfl⟩

theorem updateMailbox_merge_spec_witness :
    updateMailbox "id5w" c5u "t1" [c5m]
      = (.ok (applyUpdate c5m c5u "t1"),
         updateFirst (fun x => x.id == "id5w") (fun _ => applyUpdate c5m c5u "t1") [c5m]) ∧
    (applyUpdate c5m c5u "t1").email = "w@x.y" := by
  have h := ((updateMailbox_merge_spec "id5w" c5u "t1" [c5m]).2 (by decide)).2 c5m (by decide)
  exact ⟨h.1, h.2.2.2.2.2.2.1.trans (by decide)⟩

/-- C6 counterexample.  The claim says a reactivation takes the supplied
source when the caller explicitly supplies one; the code instead keeps
the stored source whenever it is set: reactivating a record whose source
is purchase while supplying source gift stores purchase, not gift. -/
theorem reactivation_keeps_source_cex :
    ((addMailbox ⟨"a@b.c", "p2", "c2", "r2", "gift"⟩ "fX" "t1"
        [⟨"id6", "a@b.c", "p", "c", "r", some false, "purchase", "t0", "t0"⟩]).2.map
        (fun m => m.source))
      = ["purchase"] ∧ ("purchase" : String) ≠ "gift" := by decide

/-- C6 amended.  On reactivation — through addMailbox, and through the
reconciliation loop of addMailboxesBatch on a batch carrying the entry —
the stored record keeps its original source whenever that source is set,
regardless of what the caller supplies; a supplied source only takes
effect when the stored source is unset.  The reactivated record with the
preserved source is the one returned and the one present in the
persisted set. -/
theorem reactivation_source_sticky (d : MailboxData) (fid now : String)
    (store : List Mailbox) (m : Mailbox) (hsrc : m.source ≠ "") :
    (validateAddOne d = none →
      store.find? (fun x => x.email == d.email) = some m →
      m.is_active = some false →
      addMailbox d fid now store
        = (.ok (reactivate m d now),
           updateFirst (fun x => x.email == d.email) (fun _ => reactivate m d now) store) ∧
      (reactivate m d now).source = m.source ∧
      reactivate m d now
        ∈ updateFirst (fun x => x.email == d.email) (fun _ => reactivate m d now) store) ∧
    (∀ ids, jsMapGet store d.email = some m → m.is_active = some false →
      processBatch now [d] ids store
        = ⟨updateLast (fun x => x.email == d.email) (fun _ => reactivate m d now) store,
           [], [reactivate m d now], []⟩ ∧
      (reactivate m d now).source = m.source ∧
      reactivate m d now
        ∈ updateLast (fun x => x.email == d.email) (fun _ => reactivate m d now) store) := by
  have hkeep : (reactivate m d now).source = m.source := by
    simp [reactivate, hsrc]
  constructor
  · intro hv hfind hinact
    have hcond : (m.is_active != some false) = false := by simp [hinact]
    exact ⟨by simp [addMailbox, hv, hfind, hcond], hkeep,
      mem_updateFirst_of_find _ _ store m hfind⟩
  · intro ids hmap hinact
    have hcond : (m.is_active == some false) = true := by simp [hinact]
    have hmem : reactivate m d now
        ∈ updateLast (fun x => x.email == d.email) (fun _ => reactivate m d now) store := by
      unfold updateLast
      rw [List.mem_reverse]
      exact mem_updateFirst_of_find _ _ store.reverse m hmap
    exact ⟨by simp [processBatch, hmap, hcond], hkeep, hmem⟩

theorem reactivation_source_sticky_witness :
    (reactivate c6m c6d "t1").source = "purchase" ∧
    addMailbox c6d "f6" "t1" [c6m]
      = (.ok (reactivate c6m c6d "t1"),
         updateFirst (fun x => x.email == c6d.email) (fun _ => reactivate c6m c6d "t1") [c6m]) := by
  have h := (reactivation_source_sticky c6d "f6" "t1" [c6m] c6m (by decide)).1
    (by decide) (by decide) (by decide)
  exact ⟨h.2.1.trans (by decide), h.1⟩

theorem getAllMailboxes_append_active (s : List Mailbox) (r : Mailbox)
    (h : isActiveRec r = true) : getAllMailboxes (s ++ [r]) = getAllMailboxes s ++ [r] := by
  have h' : (r.is_active != some false) = true := h
  simp [getAllMailboxes, List.filter_append, h']

theorem addMailbox_fresh (d : MailboxData) (fid now : String) (store : List Mailbox)
    (hv : validateAddOne d = none) (hno : ∀ m ∈ store, m.email ≠ d.email) :
    addMailbox d fid now store = (.ok (newMailbox d fid now), store ++ [newMailbox d fid now]) := by
  have hfind : store.find? (fun m => m.email == d.email) = none := by
    rw [List.find?_eq_none]
    intro x hx
    simpa using hno x hx
  simp [addMailbox, hv, hfind]

theorem runAddAll_counts (now : String) (ds : List MailboxData) :
    ∀ (ids : List String) (store : List Mailbox),
    (∀ d ∈ ds, validateAddOne d = none) →
    (ds.map (fun d => d.email)).Nodup →
    (∀ d ∈ ds, ∀ m ∈ store, m.email ≠ d.email) →
    (getAllMailboxes (runAddAll now ds ids store)).length
      = (getAllMailboxes store).length + ds.length ∧
    (runAddAll now ds ids store).length = store.length + ds.length := by
  induction ds with
  | nil => intro ids store _ _ _; simp [runAddAll]
  | cons d ds ih =>
    intro ids store hv hnd hfresh
    have hvd := hv d (List.mem_cons_self d ds)
    have hnd' : (ds.map (fun d => d.email)).Nodup := by
      have : (d.email :: ds.map (fun d => d.email)).Nodup := by simpa using hnd
      exact (List.nodup_cons.mp this).2
    have hhead : d.email ∉ ds.map (fun d => d.email) := by
      have : (d.email :: ds.map (fun d => d.email)).Nodup := by simpa using hnd
      exact (List.nodup_cons.mp this).1
    have hstep := addMailbox_fresh d (ids.headD "") now store hvd
      (fun m hm => hfresh d (List.mem_cons_self d ds) m hm)
    have hact : isActiveRec (newMailbox d (ids.headD "") now) = true := by
      simp [newMailbox, isActiveRec]
    have hfresh' : ∀ d' ∈ ds, ∀ m ∈ store ++ [newMailbox d (ids.headD "") now],
        m.email ≠ d'.email := by
      intro d' hd' m hm
      rcases List.mem_append.mp hm with hms | hmr
      · exact hfresh d' (List.mem_cons_of_mem _ hd') m hms
      · have hmr' : m = newMailbox d (ids.headD "") now := by simpa using hmr
        subst hmr'
        intro hcontra
        exact hhead (by
          have : d.email = d'.email := hcontra
          rw [this]
          exact List.mem_map.mpr ⟨d', hd', rfl⟩)
    have hrec := ih ids.tail (store ++ [newMailbox d (ids.headD "") now])
      (fun d' hd' => hv d' (List.mem_cons_of_mem _ hd')) hnd' hfresh'
    have hrun : runAddAll now (d :: ds) ids store
        = runAddAll now ds ids.tail (store ++ [newMailbox d (ids.headD "") now]) := by
      show runAddAll now ds ids.tail (addMailbox d (ids.headD "") now store).2
          = runAddAll now ds ids.tail (store ++ [newMailbox d (ids.headD "") now])
      rw [hstep]
    rw [hrun]
    rw [getAllMailboxes_append_active store _ hact] at hrec
    constructor
    · rw [hrec.1]
      simp
      omega
    · rw [hrec.2]
      simp
      omega

theorem existsEmail_eq_true_iff (store : List Mailbox) (d : MailboxData) :
    existsEmail store d = true ↔ ∃ m ∈ store, m.email = d.email := by
  simp [existsEmail]

theorem existsEmail_eq_false_iff (store : List Mailbox) (d : MailboxData) :
    existsEmail store d = false ↔ ∀ m ∈ store, m.email ≠ d.email := by
  simp [existsEmail]

theorem filter_not_length {α : Type} (p : α → Bool) (l : List α) :
    (l.filter (fun a => !p a)).length = l.length - (l.filter p).length := by
  induction l with
  | nil => rfl
  | cons a l ih =>
    have hle := List.length_filter_le p l
    cases hp : p a with
    | false =>
      simp only [List.filter_cons, hp, Bool.not_false, if_true, List.length_cons, ih,
        Bool.false_eq_true, if_false]
      omega
    | true =>
      simp only [List.filter_cons, hp, Bool.not_true, if_true, List.length_cons, ih,
        Bool.false_eq_true, if_false]
      omega

theorem firstBatchError_none (ds : List MailboxData)
    (h : ∀ d ∈ ds, validateBatchEntry d = none) : firstBatchError ds = none := by
  induction ds with
  | nil => rfl
  | cons d ds ih =>
    simp [firstBatchError, h d (List.mem_cons_self d ds),
      ih (fun d' hd' => h d' (List.mem_cons_of_mem _ hd'))]

theorem jsMapGet_eq_none_iff (store : List Mailbox) (e : String) :
    jsMapGet store e = none ↔ ∀ m ∈ store, m.email ≠ e := by
  simp [jsMapGet, List.find?_eq_none]

theorem processBatch_spec (now : String) (ds : List MailboxData) :
    ∀ (ids : List String) (store : List Mailbox),
    (store.map (fun m => m.email)).Nodup →
    (ds.map (fun d => d.email)).Nodup →
    (∀ d ∈ ds, (∃ m ∈ store, m.email = d.email ∧ isActiveRec m = true) ∨
      (∀ m ∈ store, m.email ≠ d.email)) →
    (processBatch now ds ids store).addedRecs.length
        = (ds.filter (fun d => !existsEmail store d)).length ∧
    (processBatch now ds ids store).reactRecs = [] ∧
    (processBatch now ds ids store).skippedEmails.length
        = (ds.filter (fun d => existsEmail store d)).length ∧
    ((processBatch now ds ids store).store.map (fun m => m.email)).Nodup ∧
    (∀ e, e ∈ activeEmails (processBatch now ds ids store).store
        ↔ e ∈ activeEmails store ∨ e ∈ ds.map (fun d => d.email)) := by
  induction ds with
  | nil =>
    intro ids store hsn _ _
    refine ⟨rfl, rfl, rfl, hsn, ?_⟩
    intro e
    simp [processBatch]
  | cons d ds ih =>
    intro ids store hsn hdn hclass
    have hinjE := List.inj_on_of_nodup_map hsn
    have hdn' : (ds.map (fun d => d.email)).Nodup := by
      have : (d.email :: ds.map (fun d => d.email)).Nodup := by simpa using hdn
      exact (List.nodup_cons.mp this).2
    have hhead : d.email ∉ ds.map (fun d => d.email) := by
      have : (d.email :: ds.map (fun d => d.email)).Nodup := by simpa using hdn
      exact (List.nodup_cons.mp this).1
    rcases hclass d (List.mem_cons_self d ds) with ⟨m, hm, hme, hact⟩ | hno
    · -- the entry already has an active record: the skip branch
      have hsome : jsMapGet store d.email = some m := by
        unfold jsMapGet
        refine find?_eq_some_of_unique _ store.reverse m (List.mem_reverse.mpr hm)
          (by simp [hme]) ?_
        intro a ha hpa
        have ha' : a ∈ store := List.mem_reverse.mp ha
        have hae : a.email = m.email := by
          have : a.email = d.email := by simpa using hpa
          rw [this, hme]
        exact hinjE ha' hm hae
      have hact' : (m.is_active != some false) = true := hact
      have hcond : (m.is_active == some false) = false := by
        have hne' : m.is_active ≠ some false := by simpa using hact'
        exact beq_eq_false_iff_ne.mpr hne'
      have hstep : processBatch now (d :: ds) ids store
          = ⟨(processBatch now ds ids store).store,
             (processBatch now ds ids store).addedRecs,
             (processBatch now ds ids store).reactRecs,
             d.email :: (processBatch now ds ids store).skippedEmails⟩ := by
        simp [processBatch, hsome, hcond]
      have hrec := ih ids store hsn hdn'
        (fun d' hd' => hclass d' (List.mem_cons_of_mem _ hd'))
      have hex : existsEmail store d = true :=
        (existsEmail_eq_true_iff store d).mpr ⟨m, hm, hme⟩
      have hdact : d.email ∈ activeEmails store := by
        refine List.mem_map.mpr ⟨m, ?_, hme⟩
        exact List.mem_filter.mpr ⟨hm, hact'⟩
      rw [hstep]
      refine ⟨?_, hrec.2.1, ?_, hrec.2.2.2.1, ?_⟩
      · simpa [List.filter_cons, hex] using hrec.1
      · simpa [List.filter_cons, hex] using hrec.2.2.1
      · intro e
        have hiff := hrec.2.2.2.2 e
        rw [List.map_cons]
        constructor
        · intro he
          rcases hiff.mp he with hA | hT
          · exact Or.inl hA
          · exact Or.inr (List.mem_cons_of_mem _ hT)
        · intro he
          rcases he with hA | hDT
          · exact hiff.mpr (Or.inl hA)
          · rcases List.mem_cons.mp hDT with rfl | hT
            · exact hiff.mpr (Or.inl hdact)
            · exact hiff.mpr (Or.inr hT)
    · -- no record carries the email: the add branch
      have hnone : jsMapGet store d.email = none := (jsMapGet_eq_none_iff store d.email).mpr hno
      have hstep : processBatch now (d :: ds) ids store
          = ⟨(processBatch now ds ids.tail (store ++ [newMailbox d (ids.headD "") now])).store,
             newMailbox d (ids.headD "") now
               :: (processBatch now ds ids.tail (store ++ [newMailbox d (ids.headD "") now])).addedRecs,
             (processBatch now ds ids.tail (store ++ [newMailbox d (ids.headD "") now])).reactRecs,
             (processBatch now ds ids.tail (store ++ [newMailbox d (ids.headD "") now])).skippedEmails⟩ := by
        simp [processBatch, hnone]
      have hact : isActiveRec (newMailbox d (ids.headD "") now) = true := by
        simp [newMailbox, isActiveRec]
      have hsn' : ((store ++ [newMailbox d (ids.headD "") now]).map (fun m => m.email)).Nodup := by
        rw [List.map_append]
        rw [List.nodup_append]
        refine ⟨hsn, by simp, ?_⟩
        intro a ha
        obtain ⟨x, hx, rfl⟩ := List.mem_map.mp ha
        simp only [List.map_cons, List.map_nil, List.mem_cons, List.not_mem_nil, or_false]
        intro hcontra
        exact hno x hx (by simpa [newMailbox] using hcontra)
      have hclass' : ∀ d' ∈ ds,
          (∃ m' ∈ store ++ [newMailbox d (ids.headD "") now],
            m'.email = d'.email ∧ isActiveRec m' = true) ∨
          (∀ m' ∈ store ++ [newMailbox d (ids.headD "") now], m'.email ≠ d'.email) := by
        intro d' hd'
        have hne : d.email ≠ d'.email := by
          intro hcontra
          exact hhead (hcontra ▸ List.mem_map.mpr ⟨d', hd', rfl⟩)
        rcases hclass d' (List.mem_cons_of_mem _ hd') with ⟨m', hm', hme', hact'⟩ | hno'
        · exact Or.inl ⟨m', List.mem_append.mpr (Or.inl hm'), hme', hact'⟩
        · refine Or.inr ?_
          intro m' hm'
          rcases List.mem_append.mp hm' with hms | hmr
          · exact hno' m' hms
          · have : m' = newMailbox d (ids.headD "") now := by simpa using hmr
            subst this
            simpa [newMailbox] using hne
      have hrec := ih ids.tail (store ++ [newMailbox d (ids.headD "") now]) hsn' hdn' hclass'
      have hbridge : ∀ d' ∈ ds,
          existsEmail (store ++ [newMailbox d (ids.headD "") now]) d' = existsEmail store d' := by
        intro d' hd'
        have hne : d.email ≠ d'.email := by
          intro hcontra
          exact hhead (hcontra ▸ List.mem_map.mpr ⟨d', hd', rfl⟩)
        unfold existsEmail
        rw [List.any_append]
        have hb : (List.any [newMailbox d (ids.headD "") now] fun m => m.email == d'.email)
            = false := by
          simp only [List.any_cons, List.any_nil, Bool.or_false]
          exact beq_eq_false_iff_ne.mpr hne
        rw [hb, Bool.or_false]
      have hex : existsEmail store d = false := (existsEmail_eq_false_iff store d).mpr hno
      have hAE : activeEmails (store ++ [newMailbox d (ids.headD "") now])
          = activeEmails store ++ [d.email] := by
        rw [activeEmails, getAllMailboxes_append_active store _ hact]
        simp [activeEmails, newMailbox]
      rw [hstep]
      refine ⟨?_, hrec.2.1, ?_, hrec.2.2.2.1, ?_⟩
      · have hfc : ds.filter (fun d' => !existsEmail (store ++ [newMailbox d (ids.headD "") now]) d')
            = ds.filter (fun d' => !existsEmail store d') :=
          List.filter_congr (fun d' hd' => by rw [hbridge d' hd'])
        simp only [List.length_cons, hrec.1, hfc, List.filter_cons, hex]
        simp
      · have hfc : ds.filter (fun d' => existsEmail (store ++ [newMailbox d (ids.headD "") now]) d')
            = ds.filter (fun d' => existsEmail store d') :=
          List.filter_congr (fun d' hd' => hbridge d' hd')
        simp only [hrec.2.2.1, hfc, List.filter_cons, hex]
        simp
      · intro e
        have hiff := hrec.2.2.2.2 e
        rw [hAE] at hiff
        rw [List.map_cons]
        constructor
        · intro he
          rcases hiff.mp he with hA | hT
          · rcases List.mem_append.mp hA with hA' | hD
            · exact Or.inl hA'
            · exact Or.inr (List.mem_cons.mpr (Or.inl (List.mem_singleton.mp hD)))
          · exact Or.inr (List.mem_cons_of_mem _ hT)
        · intro he
          rcases he with hA | hDT
          · exact hiff.mpr (Or.inl (List.mem_append.mpr (Or.inl hA)))
          · rcases List.mem_cons.mp hDT with rfl | hT
            · exact hiff.mpr (Or.inl (List.mem_append.mpr (Or.inr (List.mem_singleton.mpr rfl))))
            · exact hiff.mpr (Or.inr hT)

/-- C2.  A batch of N valid entries with pairwise distinct emails, each
of which either already has an active stored record or no stored record
at all (M of them have one), makes addMailboxesBatch succeed reporting
added = N - M, skipped = M and no reactivations, and afterwards the
active emails are exactly the union of the prior active emails and the
batch emails, with no email carried by two active records. -/
theorem addBatch_reconciliation (ds : List MailboxData) (ids : List String) (now : String)
    (store : List Mailbox)
    (hne : ds ≠ [])
    (hvd : ∀ d ∈ ds, validateBatchEntry d = none)
    (hsn : (store.map (fun m => m.email)).Nodup)
    (hdn : (ds.map (fun d => d.email)).Nodup)
    (hclass : ∀ d ∈ ds, (∃ m ∈ store, m.email = d.email ∧ isActiveRec m = true) ∨
      (∀ m ∈ store, m.email ≠ d.email)) :
    ∃ b store',
      addMailboxesBatch ds ids now store = (.ok b, store') ∧
      b.added = ds.length - (ds.filter (fun d => existsEmail store d)).length ∧
      b.skipped = (ds.filter (fun d => existsEmail store d)).length ∧
      b.reactivated = 0 ∧
      (∀ e, e ∈ activeEmails store' ↔ e ∈ activeEmails store ∨ e ∈ ds.map (fun d => d.email)) ∧
      (activeEmails store').Nodup := by
  have hisE : ds.isEmpty = false := by
    cases ds
    · exact absurd rfl hne
    · rfl
  have hfb : firstBatchError ds = none := firstBatchError_none ds hvd
  obtain ⟨hadd, hreact, hskip, hnodup, hiff⟩ := processBatch_spec now ds ids store hsn hdn hclass
  refine ⟨⟨(processBatch now ds ids store).addedRecs ++ (processBatch now ds ids store).reactRecs,
      (processBatch now ds ids store).addedRecs.length,
      (processBatch now ds ids store).reactRecs.length,
      (processBatch now ds ids store).skippedEmails.length,
      (processBatch now ds ids store).skippedEmails⟩,
    (processBatch now ds ids store).store,
    by simp [addMailboxesBatch, hisE, hfb], ?_, ?_, ?_, hiff, ?_⟩
  · simpa [filter_not_length] using hadd
  · exact hskip
  · simp [hreact]
  · have hsub : List.Sublist (activeEmails (processBatch now ds ids store).store)
        ((processBatch now ds ids store).store.map (fun m => m.email)) :=
      List.Sublist.map _ (List.filter_sublist _)
    exact hnodup.sublist hsub

theorem addBatch_reconciliation_witness :
    ∃ b store',
      addMailboxesBatch [⟨"a@b.c", "p", "c", "r", ""⟩, ⟨"d@e.f", "p", "c", "r", ""⟩]
        ["j1", "j2"] "t1" [c2m] = (.ok b, store') ∧
      b.added = 2 - 1 ∧ b.skipped = 1 ∧ b.reactivated = 0 := by
  obtain ⟨b, store', heq, hadd, hskip, hreact, _, _⟩ :=
    addBatch_reconciliation [⟨"a@b.c", "p", "c", "r", ""⟩, ⟨"d@e.f", "p", "c", "r", ""⟩]
      ["j1", "j2"] "t1" [c2m] (by decide) (by decide) (by decide) (by decide)
      (by
        intro d hd
        rcases List.mem_cons.mp hd with rfl | hd'
        · exact Or.inl ⟨c2m, by simp, by decide, by decide⟩
        · rcases List.mem_cons.mp hd' with rfl | hd''
          · refine Or.inr ?_
            intro m hm
            rcases List.mem_cons.mp hm with rfl | hm'
            · decide
            · simp at hm'
          · simp at hd'')
  refine ⟨b, store', heq, ?_, ?_, hreact⟩
  · exact hadd.trans (by decide)
  · exact hskip.trans (by decide)

theorem classifySweep_spec (probe : Mailbox → ProbeResult) (l : List Mailbox) :
    (classifySweep probe l).checked
      = (l.filter (fun m => checkMailbox probe m == CheckOutcome.valid)).length ∧
    (classifySweep probe l).removedIds
      = (l.filter (fun m => checkMailbox probe m == CheckOutcome.invalid)).map (fun m => m.id) ∧
    (classifySweep probe l).removedEmails
      = (l.filter (fun m => checkMailbox probe m == CheckOutcome.invalid)).map (fun m => m.email) ∧
    (classifySweep probe l).errors
      = l.filterMap (fun m =>
          match checkMailbox probe m with
          | .probeError msg => some (m.email, msg)
          | _ => none) := by
  induction l with
  | nil => exact ⟨rfl, rfl, rfl, rfl⟩
  | cons m l ih =>
    obtain ⟨ih1, ih2, ih3, ih4⟩ := ih
    cases hc : checkMailbox probe m with
    | valid =>
      refine ⟨?_, ?_, ?_, ?_⟩ <;>
        simp [classifySweep, hc, List.filter_cons, List.filterMap_cons, ih1, ih2, ih3, ih4]
    | invalid =>
      refine ⟨?_, ?_, ?_, ?_⟩ <;>
        simp [classifySweep, hc, List.filter_cons, List.filterMap_cons, ih1, ih2, ih3, ih4]
    | probeError msg =>
      refine ⟨?_, ?_, ?_, ?_⟩ <;>
        simp [classifySweep, hc, List.filter_cons, List.filterMap_cons, ih1, ih2, ih3, ih4]

theorem deleteBatchLoop_map_id (now : String) (L : List String) :
    ∀ store : List Mailbox,
    ((deleteBatchLoop now L store).2.map (fun m => m.id)) = store.map (fun m => m.id) := by
  induction L with
  | nil => intro store; rfl
  | cons i L ih =>
    intro store
    cases hf : store.find? (fun m => m.id == i) with
    | none => simp [deleteBatchLoop, hf, ih]
    | some m =>
      by_cases hact : (m.is_active != some false) = true
      · have hmi : m.id = i := by
          have := List.find?_some hf
          simpa using this
        have hmap : (updateFirst (fun x => x.id == i) (fun _ => markDeleted m now) store).map
            (fun x => x.id) = store.map (fun x => x.id) := by
          refine map_updateFirst _ _ _ store ?_
          intro x hx
          have : x.id = i := by simpa using hx
          simp [markDeleted, hmi, this]
        simp [deleteBatchLoop, hf, hact, ih, hmap]
      · simp [deleteBatchLoop, hf, hact, ih]

theorem mem_deleteBatchLoop_of_not (now : String) (L : List String) :
    ∀ (store : List Mailbox) (m : Mailbox),
    m ∈ store → m.id ∉ L → m ∈ (deleteBatchLoop now L store).2 := by
  induction L with
  | nil => intro store m hm _; exact hm
  | cons i L ih =>
    intro store m hm hnot
    have hne : m.id ≠ i := fun h => hnot (h ▸ List.mem_cons_self i L)
    have hnt : m.id ∉ L := fun h => hnot (List.mem_cons_of_mem _ h)
    cases hf : store.find? (fun x => x.id == i) with
    | none => simpa [deleteBatchLoop, hf] using ih store m hm hnt
    | some x =>
      by_cases hact : (x.is_active != some false) = true
      · have hmem : m ∈ updateFirst (fun y => y.id == i) (fun _ => markDeleted x now) store :=
          mem_updateFirst_of_not_p _ _ store m hm (by simp [hne])
        simpa [deleteBatchLoop, hf, hact] using ih _ m hmem hnt
      · simpa [deleteBatchLoop, hf, hact] using ih store m hm hnt

theorem deleteBatchLoop_marks (now : String) (L : List String) :
    ∀ (store : List Mailbox) (m : Mailbox),
    (store.map (fun x => x.id)).Nodup → L.Nodup → m ∈ store → m.id ∈ L →
    isActiveRec m = true → markDeleted m now ∈ (deleteBatchLoop now L store).2 := by
  induction L with
  | nil => intro _ m _ _ _ h _; simp at h
  | cons i L ih =>
    intro store m hsn hLn hm hin hact
    have hinj := List.inj_on_of_nodup_map hsn
    by_cases hide : m.id = i
    · have hf : store.find? (fun x => x.id == i) = some m := by
        refine find?_eq_some_of_unique _ store m hm (by simp [hide]) ?_
        intro a ha hpa
        refine hinj ha hm ?_
        have : a.id = i := by simpa using hpa
        rw [this, hide]
      have hact' : (m.is_active != some false) = true := hact
      have hmem : markDeleted m now
          ∈ updateFirst (fun x => x.id == i) (fun _ => markDeleted m now) store :=
        mem_updateFirst_of_find _ _ store m hf
      have hnotL : (markDeleted m now).id ∉ L := by
        have : m.id ∉ L := hide ▸ (List.nodup_cons.mp hLn).1
        simpa [markDeleted] using this
      have := mem_deleteBatchLoop_of_not now L
        (updateFirst (fun x => x.id == i) (fun _ => markDeleted m now) store)
        (markDeleted m now) hmem hnotL
      simpa [deleteBatchLoop, hf, hact'] using this
    · have hin' : m.id ∈ L := by
        rcases List.mem_cons.mp hin with h | h
        · exact absurd h hide
        · exact h
      cases hf : store.find? (fun x => x.id == i) with
      | none =>
        simpa [deleteBatchLoop, hf] using
          ih store m hsn (List.nodup_cons.mp hLn).2 hm hin' hact
      | some x =>
        by_cases hactx : (x.is_active != some false) = true
        · have hxi : x.id = i := by
            have := List.find?_some hf
            simpa using this
          have hmem : m ∈ updateFirst (fun y => y.id == i) (fun _ => markDeleted x now) store :=
            mem_updateFirst_of_not_p _ _ store m hm (by simp [hide])
          have hsn' : ((updateFirst (fun y => y.id == i) (fun _ => markDeleted x now) store).map
              (fun y => y.id)).Nodup := by
            have hmap : (updateFirst (fun y => y.id == i) (fun _ => markDeleted x now) store).map
                (fun y => y.id) = store.map (fun y => y.id) := by
              refine map_updateFirst _ _ _ store ?_
              intro y hy
              have : y.id = i := by simpa using hy
              simp [markDeleted, hxi, this]
            rw [hmap]
            exact hsn
          simpa [deleteBatchLoop, hf, hactx] using
            ih _ m hsn' (List.nodup_cons.mp hLn).2 hmem hin' hact
        · simpa [deleteBatchLoop, hf, hactx] using
            ih store m hsn (List.nodup_cons.mp hLn).2 hm hin' hact

theorem sweepTarget_sublist (source : String) (ids : List String) (store : List Mailbox) :
    List.Sublist (sweepTarget source ids store) store :=
  (List.filter_sublist _).trans (List.filter_sublist _)

/-- C7.  Every probed record of a sweep falls into exactly one of the
three classes of checkMailbox; the sweep result counts checked as the
number classified valid and removed as the number classified invalid,
lists one removedEmails entry per invalid record and exactly one errors
entry per record whose probe failed in any other way, and afterwards
only the invalid records are soft-deleted: every valid or errored target
record is still present and active, while every invalid one is present
as its soft-deleted copy. -/
theorem sweep_classification_spec (probe : Mailbox → ProbeResult) (ids : List String)
    (source : String) (now : String) (store : List Mailbox)
    (hids : (store.map (fun m => m.id)).Nodup) :
    (validateMailboxesBySource probe ids source now store).1.checked
      = ((sweepTarget source ids store).filter
          (fun m => checkMailbox probe m == CheckOutcome.valid)).length ∧
    (validateMailboxesBySource probe ids source now store).1.removed
      = ((sweepTarget source ids store).filter
          (fun m => checkMailbox probe m == CheckOutcome.invalid)).length ∧
    (validateMailboxesBySource probe ids source now store).1.removedEmails
      = ((sweepTarget source ids store).filter
          (fun m => checkMailbox probe m == CheckOutcome.invalid)).map (fun m => m.email) ∧
    (validateMailboxesBySource probe ids source now store).1.errors
      = (sweepTarget source ids store).filterMap (fun m =>
          match checkMailbox probe m with
          | .probeError msg => some (m.email, msg)
          | _ => none) ∧
    (∀ m ∈ sweepTarget source ids store, checkMailbox probe m ≠ .invalid →
      m ∈ (validateMailboxesBySource probe ids source now store).2 ∧ isActiveRec m = true) ∧
    (∀ m ∈ sweepTarget source ids store, checkMailbox probe m = .invalid →
      markDeleted m now ∈ (validateMailboxesBySource probe ids source now store).2 ∧
      isActiveRec (markDeleted m now) = false) := by
  obtain ⟨h1, h2, h3, h4⟩ := classifySweep_spec probe (sweepTarget source ids store)
  have htsub := sweepTarget_sublist source ids store
  have htids : ((sweepTarget source ids store).map (fun m => m.id)).Nodup :=
    hids.sublist (htsub.map _)
  have hinj := List.inj_on_of_nodup_map hids
  have hmemstore : ∀ m ∈ sweepTarget source ids store, m ∈ store :=
    fun m hm => htsub.subset hm
  have hmemact : ∀ m ∈ sweepTarget source ids store, isActiveRec m = true := by
    intro m hm
    have := (List.mem_filter.mp hm).1
    exact (List.mem_filter.mp this).2
  have hnotin : ∀ m ∈ sweepTarget source ids store, checkMailbox probe m ≠ .invalid →
      m.id ∉ (classifySweep probe (sweepTarget source ids store)).removedIds := by
    intro m hm hnc hcontra
    rw [h2] at hcontra
    obtain ⟨m', hm', hm'id⟩ := List.mem_map.mp hcontra
    have hm'mem := List.mem_filter.mp hm'
    have : m' = m := hinj (hmemstore m' hm'mem.1) (hmemstore m hm) hm'id
    subst this
    exact hnc (by simpa using hm'mem.2)
  have hstore2 : (validateMailboxesBySource probe ids source now store).2
      = (if (classifySweep probe (sweepTarget source ids store)).removedIds.isEmpty
          then store
          else (deleteBatchLoop now
            (classifySweep probe (sweepTarget source ids store)).removedIds store).2) := rfl
  refine ⟨h1, by simpa using congrArg List.length h2, h3, h4, ?_, ?_⟩
  · intro m hm hnc
    refine ⟨?_, hmemact m hm⟩
    rw [hstore2]
    by_cases hE : (classifySweep probe (sweepTarget source ids store)).removedIds.isEmpty = true
    · simp only [hE, if_true]
      exact hmemstore m hm
    · simp only [hE, Bool.false_eq_true, if_false]
      exact mem_deleteBatchLoop_of_not now _ store m (hmemstore m hm) (hnotin m hm hnc)
  · intro m hm hc
    refine ⟨?_, by simp [markDeleted, isActiveRec]⟩
    have hmidin : m.id ∈ (classifySweep probe (sweepTarget source ids store)).removedIds := by
      rw [h2]
      refine List.mem_map.mpr ⟨m, ?_, rfl⟩
      exact List.mem_filter.mpr ⟨hm, by simp [hc]⟩
    have hE : (classifySweep probe (sweepTarget source ids store)).removedIds.isEmpty = false := by
      cases hL : (classifySweep probe (sweepTarget source ids store)).removedIds
      · rw [hL] at hmidin; simp at hmidin
      · rfl
    have hLnd : (classifySweep probe (sweepTarget source ids store)).removedIds.Nodup := by
      rw [h2]
      refine List.Nodup.sublist ?_ htids
      exact List.Sublist.map _ (List.filter_sublist _)
    rw [hstore2]
    simp only [hE, Bool.false_eq_true, if_false]
    exact deleteBatchLoop_marks now _ store m hids hLnd (hmemstore m hm) hmidin (hmemact m hm)

theorem sweep_classification_spec_witness :
    (validateMailboxesBySource c7probe [] "purchase" "t9" c7store).1.checked = 2 ∧
    (validateMailboxesBySource c7probe [] "purchase" "t9" c7store).1.removed = 2 ∧
    (validateMailboxesBySource c7probe [] "purchase" "t9" c7store).1.errors
      = [("e5@x.y", "network timeout")] := by
  have h := sweep_classification_spec c7probe [] "purchase" "t9" c7store (by decide)
  exact ⟨h.1.trans (by decide), h.2.1.trans (by decide), h.2.2.2.1.trans (by decide)⟩

/-- C1.  K concurrent addMailbox calls with K distinct valid emails
against one store: the FIFO write lock makes the calls execute as a
sequence of atomic read-modify-write steps in the order the lock is
granted, so for every such order the resulting store holds exactly K
records, all of them active — no write is lost. -/
theorem concurrent_addOne_no_lost_writes (ds : List MailboxData) (ids : List String)
    (now : String)
    (hv : ∀ d ∈ ds, validateAddOne d = none)
    (hnd : (ds.map (fun d => d.email)).Nodup) :
    (getAllMailboxes (runAddAll now ds ids [])).length = ds.length ∧
    (runAddAll now ds ids []).length = ds.length := by
  have h := runAddAll_counts now ds ids [] hv hnd (by intro d _ m hm; simp at hm)
  simpa [getAllMailboxes] using h

theorem concurrent_addOne_no_lost_writes_witness :
    (getAllMailboxes (runAddAll "t1"
        [⟨"k1@x.y", "p", "c", "r", ""⟩, ⟨"k2@x.y", "p", "c", "r", ""⟩,
         ⟨"k3@x.y", "p", "c", "r", ""⟩] ["i1", "i2", "i3"] [])).length = 3 :=
  (concurrent_addOne_no_lost_writes
    [⟨"k1@x.y", "p", "c", "r", ""⟩, ⟨"k2@x.y", "p", "c", "r", ""⟩,
     ⟨"k3@x.y", "p", "c", "r", ""⟩] ["i1", "i2", "i3"] "t1" (by decide) (by decide)).1
